import Mathlib

/-!
Verification of the heart-disease predictor pipeline.

Shallow embedding of the training script (`train.py`) and of the inference
call sequence embedded in the interactive app (`main.py`).  Floating-point
numbers are idealized as rationals; the numeric square root used by the
feature scaler is passed in as an abstract function `sq` (no theorem below
depends on its values).  Python exceptions are modeled by the inductive
type `PredError`, whose constructors carry the same payload as the
exception messages raised by the corresponding library calls.
-/

namespace HeartApp

/-- a cell value of a pandas record: a string (raw categorical field) or a
number (floats idealized as rationals). -/
inductive Value where
  | s (v : String)
  | q (v : ℚ)
deriving DecidableEq, Repr

/-- one raw input record: a mapping from column name to value, as built by
`display_input_section` in `main.py` (a Python dict, keys unique). -/
abbrev Record := List (String × Value)

/-- dict lookup / `col in input_df.columns` membership plus access. -/
def Record.find? (rec : Record) (col : String) : Option Value :=
  match rec with
  | [] => none
  | (k, v) :: rest => if k = col then some v else Record.find? rest col

/-- column assignment `input_df[col] = ...`: replaces the value stored at an
existing key, leaves all other keys unchanged. -/
def Record.setCol (rec : Record) (col : String) (v : Value) : Record :=
  rec.map (fun kv => if kv.1 = col then (kv.1, v) else kv)

/-- typed payloads of the Python exceptions that can escape the inference
call sequence in `display_prediction_results` (`main.py` lines 271-287):
`unseenLabels` is the ValueError raised by `LabelEncoder.transform` on a
category not seen at fit time, `columnsMissing` is the KeyError raised by
`input_df[model_columns]` listing every requested column absent from the
frame, `nonNumericValue` and `dimMismatch` are the ValueErrors raised by
`scaler.transform` when casting to float fails or the feature count differs
from the fitted one. -/
inductive PredError where
  | unseenLabels (col : String) (vals : List Value)
  | columnsMissing (cols : List String)
  | nonNumericValue (val : String)
  | dimMismatch (expected got : ℕ)
deriving DecidableEq, Repr

deriving instance DecidableEq for Except

/-- `sklearn.preprocessing.LabelEncoder` after `fit`: the sorted array of
distinct observed category labels (`classes_`). -/
structure LabelEncoder where
  classes_ : List String
deriving DecidableEq, Repr

/-- the character codes of a string, the sort key `np.unique` orders by. -/
def strKey (s : String) : List ℕ := s.toList.map (fun c => c.toNat)

/-- lexicographic comparison of code sequences. -/
def natListLe : List ℕ → List ℕ → Bool
  | [], _ => true
  | _ :: _, [] => false
  | a :: as, b :: bs => if a < b then true else if b < a then false else natListLe as bs

/-- lexicographic string comparison by character codes. -/
def strLe (a b : String) : Bool := natListLe (strKey a) (strKey b)

/-- insert a string into a sorted list of strings. -/
def insertSorted (x : String) : List String → List String
  | [] => [x]
  | y :: ys => if strLe x y then x :: y :: ys else y :: insertSorted x ys

/-- sort a list of strings (insertion sort). -/
def sortStrings : List String → List String
  | [] => []
  | x :: xs => insertSorted x (sortStrings xs)

/-- `LabelEncoder.fit` / the fitting half of `fit_transform` (`train.py`
line 20): `classes_` is `np.unique` of the observed values, i.e. the
distinct values in sorted order. -/
def LabelEncoder.fit (vs : List String) : LabelEncoder :=
  ⟨sortStrings vs.dedup⟩

/-- `LabelEncoder.transform` on one cell (`main.py` line 278): the integer
code is the index of the label in `classes_`; a value outside `classes_`
(in particular any non-string once the encoder was fitted on strings)
raises the unseen-labels ValueError. -/
def LabelEncoder.transformValue (le : LabelEncoder) (col : String) (v : Value) :
    Except PredError Value :=
  match v with
  | .s str =>
      if str ∈ le.classes_ then .ok (.q (le.classes_.indexOf str))
      else .error (.unseenLabels col [v])
  | .q _ => .error (.unseenLabels col [v])

/-- `LabelEncoder.inverse_transform` on one code. -/
def LabelEncoder.inverseTransform (le : LabelEncoder) (code : ℕ) : Option String :=
  le.classes_[code]?

/-- the encoding loop of `display_prediction_results` (`main.py` lines
276-278): for each fitted encoder, in bank order, if its column is present
in the frame, replace that column by its integer codes; the first
transform failure aborts the loop with that error. -/
def encode_categoricals (bank : List (String × LabelEncoder)) (rec : Record) :
    Except PredError Record :=
  match bank with
  | [] => .ok rec
  | (col, le) :: rest =>
    match rec.find? col with
    | none => encode_categoricals rest rec
    | some v =>
      match le.transformValue col v with
      | .error e => .error e
      | .ok v2 => encode_categoricals rest (rec.setCol col v2)

/-- `input_df = input_df[model_columns]` (`main.py` line 281): select the
columns in registry order; pandas raises a KeyError listing every
requested column that is not in the frame. -/
def reindex_columns (model_columns : List String) (rec : Record) :
    Except PredError (List Value) :=
  if model_columns.filter (fun c => (rec.find? c).isNone) = [] then
    .ok (model_columns.map (fun c => ((rec.find? c).getD (.q 0))))
  else .error (.columnsMissing (model_columns.filter (fun c => (rec.find? c).isNone)))

/-- the float cast performed by `check_array` inside `scaler.transform`:
every cell must be numeric, a string cell raises a could-not-convert
ValueError at the first offending value. -/
def to_float_row : List Value → Except PredError (List ℚ)
  | [] => .ok []
  | .q x :: rest => (to_float_row rest).map (fun xs => x :: xs)
  | .s str :: _ => .error (.nonNumericValue str)

/-- `sklearn.preprocessing.StandardScaler` after `fit`: the per-column
fit-time mean (`mean_`) and scale (`scale_`). -/
structure StandardScaler where
  mean_ : List ℚ
  scale_ : List ℚ
deriving DecidableEq, Repr

/-- arithmetic mean of a column. -/
def colMean (col : List ℚ) : ℚ := col.sum / col.length

/-- population variance of a column (`ddof = 0`, as `StandardScaler` uses). -/
def colVar (col : List ℚ) : ℚ := (col.map (fun x => (x - colMean col) ^ 2)).sum / col.length

/-- sklearn `_handle_zeros_in_scale`: a zero scale is replaced by one so
that constant columns are not divided by zero. -/
def handle_zeros_in_scale (x : ℚ) : ℚ := if x = 0 then 1 else x

/-- `StandardScaler.fit` (`train.py` line 43) on the column-major training
matrix: store each column's mean and the square root of its variance
(`sq` models the numeric square root; floats are not modeled and no
theorem depends on its values). -/
def StandardScaler.fit (sq : ℚ → ℚ) (cols : List (List ℚ)) : StandardScaler :=
  { mean_ := cols.map colMean
    scale_ := cols.map (fun c => handle_zeros_in_scale (sq (colVar c))) }

/-- element-wise combination of three lists, truncating at the shortest. -/
def zipWith3 (f : ℚ → ℚ → ℚ → ℚ) : List ℚ → List ℚ → List ℚ → List ℚ
  | a :: as, b :: bs, c :: cs => f a b c :: zipWith3 f as bs cs
  | _, _, _ => []

/-- `StandardScaler.transform` on one row: after validating that the row
width equals the fitted feature count, subtract the fit-time mean and
divide by the fit-time scale, per column.  The statistics stored in the
scaler are read, never recomputed. -/
def StandardScaler.transform_row (s : StandardScaler) (xs : List ℚ) :
    Except PredError (List ℚ) :=
  if xs.length = s.mean_.length then
    .ok (zipWith3 (fun x m sc => (x - m) / sc) xs s.mean_ s.scale_)
  else .error (.dimMismatch s.mean_.length xs.length)

/-- row-by-row transform of a matrix. -/
def transform_rows (s : StandardScaler) : List (List ℚ) → Except PredError (List (List ℚ))
  | [] => .ok []
  | r :: rs =>
    match s.transform_row r with
    | .error e => .error e
    | .ok r2 =>
      match transform_rows s rs with
      | .error e => .error e
      | .ok rs2 => .ok (r2 :: rs2)

/-- `StandardScaler.transform` as a state-passing method: it returns the
standardized matrix together with the scaler state after the call, making
it expressible that the call mutates nothing. -/
def StandardScaler.transform (s : StandardScaler) (m : List (List ℚ)) :
    Except PredError (List (List ℚ)) × StandardScaler :=
  (transform_rows s m, s)

/-- one fitted decision tree of the forest: internal nodes route on
`feature value ≤ threshold` (left on true, as sklearn trees do), leaves
hold the per-class training-sample counts. -/
inductive DTree where
  | leaf (n0 n1 : ℕ)
  | node (feat : ℕ) (thr : ℚ) (left right : DTree)
deriving DecidableEq, Repr

/-- the leaf counts reached by a feature vector. -/
def DTree.leafCounts (t : DTree) (x : List ℚ) : ℕ × ℕ :=
  match t with
  | .leaf a b => (a, b)
  | .node f thr l r => if x.getD f 0 ≤ thr then l.leafCounts x else r.leafCounts x

/-- one tree's class-probability estimate: the leaf counts normalized. -/
def DTree.proba (t : DTree) (x : List ℚ) : ℚ × ℚ :=
  let c := t.leafCounts x
  ((c.1 : ℚ) / ((c.1 : ℚ) + (c.2 : ℚ)), (c.2 : ℚ) / ((c.1 : ℚ) + (c.2 : ℚ)))

/-- every leaf of a fitted tree holds at least one training sample. -/
def DTree.wfB : DTree → Bool
  | .leaf a b => decide (0 < a + b)
  | .node _ _ l r => l.wfB && r.wfB

/-- `sklearn.ensemble.RandomForestClassifier` after `fit`: the list of
fitted trees. -/
structure RandomForest where
  trees : List DTree
deriving DecidableEq, Repr

/-- a fitted forest: at least one tree (`n_estimators = 100` in
`train.py` line 47) and every leaf of every tree nonempty. -/
def RandomForest.wf (m : RandomForest) : Prop :=
  m.trees ≠ [] ∧ ∀ t ∈ m.trees, t.wfB = true

instance (m : RandomForest) : Decidable m.wf := by
  unfold RandomForest.wf; infer_instance

/-- `predict_proba` on one row (`main.py` line 286): the average over all
trees of the per-tree class distributions. -/
def RandomForest.predictProba (m : RandomForest) (x : List ℚ) : ℚ × ℚ :=
  let ps := m.trees.map (fun t => t.proba x)
  ((ps.map Prod.fst).sum / (m.trees.length : ℚ),
   (ps.map Prod.snd).sum / (m.trees.length : ℚ))

/-- `predict` on one row (`main.py` line 285): the argmax of the class
probabilities, class 0 winning ties (`np.argmax` returns the first
maximum). -/
def RandomForest.predict (m : RandomForest) (x : List ℚ) : ℕ :=
  let p := m.predictProba x
  if p.1 < p.2 then 1 else 0

/-- the four fitted artifacts loaded by `load_model_files` and threaded
through the app. -/
structure Bundle where
  model : RandomForest
  scaler : StandardScaler
  model_columns : List String
  label_encoders : List (String × LabelEncoder)

/-- the four pipeline stages of the inference call sequence, in source
order. -/
inductive Step where
  | encode | assemble | scale | predictStep
deriving DecidableEq, Repr

/-- the fixed stage order of `display_prediction_results`. -/
def pipelineSteps : List Step := [.encode, .assemble, .scale, .predictStep]

/-- a successful prediction: the label and the two class probabilities. -/
structure Outcome where
  label : ℕ
  p0 : ℚ
  p1 : ℚ
deriving DecidableEq, Repr

/-- the inference call sequence inside the `try` block of
`display_prediction_results` (`main.py` lines 271-287): encode the
categorical columns, reorder to the registry order, scale, then predict
label and probabilities; the first exception aborts the sequence and is
surfaced.  The second component records which stages were attempted. -/
def predictionPipeline (b : Bundle) (rec : Record) :
    Except PredError Outcome × List Step :=
  match encode_categoricals b.label_encoders rec with
  | .error e => (.error e, pipelineSteps.take 1)
  | .ok rec2 =>
    match reindex_columns b.model_columns rec2 with
    | .error e => (.error e, pipelineSteps.take 2)
    | .ok vals =>
      match (to_float_row vals).bind b.scaler.transform_row with
      | .error e => (.error e, pipelineSteps.take 3)
      | .ok xs =>
        let proba := b.model.predictProba xs
        (.ok ⟨b.model.predict xs, proba.1, proba.2⟩, pipelineSteps)

/-- the pipeline stage whose library call raises each error kind. -/
def PredError.stageCount : PredError → ℕ
  | .unseenLabels _ _ => 1
  | .columnsMissing _ => 2
  | .nonNumericValue _ => 3
  | .dimMismatch _ _ => 3

/-- the integer code `LabelEncoder.transform` assigns to an observed label
(`none` when the label was not observed at fit time). -/
def LabelEncoder.encode? (le : LabelEncoder) (label : String) : Option ℕ :=
  if label ∈ le.classes_ then some (le.classes_.indexOf label) else none

theorem find?_setCol_self (rec : Record) (c : String) (v : Value) :
    (rec.setCol c v).find? c = (rec.find? c).map (fun _ => v) := by
  induction rec with
  | nil => rfl
  | cons kv rest ih =>
    obtain ⟨k, w⟩ := kv
    have hset : Record.setCol ((k, w) :: rest) c v
        = (if k = c then (k, v) else (k, w)) :: Record.setCol rest c v := rfl
    rw [hset]
    by_cases h : k = c
    · rw [if_pos h]
      show (if k = c then some v else (Record.setCol rest c v).find? c)
          = ((if k = c then some w else Record.find? rest c).map (fun _ => v))
      rw [if_pos h, if_pos h]
      rfl
    · rw [if_neg h]
      show (if k = c then some w else (Record.setCol rest c v).find? c)
          = ((if k = c then some w else Record.find? rest c).map (fun _ => v))
      rw [if_neg h, if_neg h]
      exact ih

theorem find?_setCol_ne (rec : Record) (c c' : String) (v : Value) (h : c' ≠ c) :
    (rec.setCol c v).find? c' = rec.find? c' := by
  induction rec with
  | nil => rfl
  | cons kv rest ih =>
    obtain ⟨k, w⟩ := kv
    have hset : Record.setCol ((k, w) :: rest) c v
        = (if k = c then (k, v) else (k, w)) :: Record.setCol rest c v := rfl
    rw [hset]
    by_cases hk : k = c
    · rw [if_pos hk]
      show (if k = c' then some v else (Record.setCol rest c v).find? c')
          = if k = c' then some w else Record.find? rest c'
      have hkc' : ¬ (k = c') := fun hh => h ((hh ▸ hk : c' = c))
      rw [if_neg hkc', if_neg hkc']
      exact ih
    · rw [if_neg hk]
      show (if k = c' then some w else (Record.setCol rest c v).find? c')
          = if k = c' then some w else Record.find? rest c'
      by_cases hk' : k = c'
      · rw [if_pos hk', if_pos hk']
      · rw [if_neg hk', if_neg hk']
        exact ih

theorem transformValue_error (le : LabelEncoder) (col : String) (v : Value) (e : PredError)
    (h : le.transformValue col v = .error e) : e = .unseenLabels col [v] := by
  cases v with
  | s str =>
    by_cases hmem : str ∈ le.classes_
    · simp [LabelEncoder.transformValue, hmem, Except.isOk, Except.toBool] at h
    · simp only [LabelEncoder.transformValue, if_neg hmem, Except.error.injEq] at h
      exact h.symm
  | q x =>
    simp only [LabelEncoder.transformValue, Except.error.injEq] at h
    exact h.symm

theorem transformValue_ok_numeric (le : LabelEncoder) (col : String) (v v2 : Value)
    (h : le.transformValue col v = .ok v2) : ∃ x, v2 = .q x := by
  cases v with
  | s str =>
    by_cases hmem : str ∈ le.classes_
    · simp only [LabelEncoder.transformValue, if_pos hmem, Except.ok.injEq] at h
      exact ⟨_, h.symm⟩
    · simp [LabelEncoder.transformValue, hmem, Except.isOk, Except.toBool] at h
  | q x => simp [LabelEncoder.transformValue] at h

theorem encode_ok_find?_isSome (bank : List (String × LabelEncoder)) (rec rec2 : Record)
    (h : encode_categoricals bank rec = .ok rec2) :
    ∀ c, (rec2.find? c).isSome = (rec.find? c).isSome := by
  induction bank generalizing rec with
  | nil =>
    intro c
    simp only [encode_categoricals] at h
    cases h; rfl
  | cons p rest ih =>
    obtain ⟨col, le⟩ := p
    intro c
    simp only [encode_categoricals] at h
    cases hf : rec.find? col with
    | none => rw [hf] at h; exact ih rec h c
    | some v =>
      rw [hf] at h
      dsimp only at h
      cases ht : le.transformValue col v with
      | error e => rw [ht] at h; cases h
      | ok v2 =>
        rw [ht] at h
        rw [ih (rec.setCol col v2) h c]
        by_cases hc : c = col
        · subst hc; rw [find?_setCol_self, hf]; rfl
        · rw [find?_setCol_ne _ _ _ _ hc]

theorem encode_error_unseen (bank : List (String × LabelEncoder)) (rec : Record)
    (e : PredError) (h : encode_categoricals bank rec = .error e) :
    ∃ col vals, e = .unseenLabels col vals := by
  induction bank generalizing rec with
  | nil =>
    simp only [encode_categoricals] at h
    exact Except.noConfusion h
  | cons p rest ih =>
    obtain ⟨col, le⟩ := p
    simp only [encode_categoricals] at h
    cases hf : rec.find? col with
    | none => rw [hf] at h; exact ih rec h
    | some v =>
      rw [hf] at h
      dsimp only at h
      cases ht : le.transformValue col v with
      | error e2 =>
        rw [ht] at h
        cases h
        exact ⟨col, [v], transformValue_error le col v _ ht⟩
      | ok v2 => rw [ht] at h; exact ih _ h

theorem encode_fails (bank : List (String × LabelEncoder)) (rec : Record)
    (hx : ∃ p ∈ bank, ∃ v, rec.find? p.1 = some v ∧ ∀ r, p.2.transformValue p.1 v ≠ .ok r) :
    ∃ col vals, encode_categoricals bank rec = .error (.unseenLabels col vals) := by
  induction bank generalizing rec with
  | nil => rcases hx with ⟨p, hp, _⟩; cases hp
  | cons q rest ih =>
    obtain ⟨col, le⟩ := q
    rcases hx with ⟨p, hp, v, hf, hbad⟩
    simp only [encode_categoricals]
    cases hfc : rec.find? col with
    | none =>
      rcases List.mem_cons.mp hp with rfl | hmem
      · rw [hfc] at hf; cases hf
      · exact ih rec ⟨p, hmem, v, hf, hbad⟩
    | some w =>
      dsimp only
      cases htr : le.transformValue col w with
      | error e =>
        obtain rfl := transformValue_error le col w e htr
        exact ⟨col, [w], rfl⟩
      | ok w2 =>
        dsimp only
        rcases List.mem_cons.mp hp with rfl | hmem
        · rw [hfc] at hf; cases hf
          exact absurd htr (hbad w2)
        · apply ih
          refine ⟨p, hmem, ?_⟩
          by_cases hcc : p.1 = col
          · rw [hcc, find?_setCol_self, hfc]
            obtain ⟨x, rfl⟩ := transformValue_ok_numeric le col w w2 htr
            exact ⟨.q x, rfl, fun r hr => by cases hr⟩
          · rw [find?_setCol_ne _ _ _ _ hcc]
            exact ⟨v, hf, hbad⟩

theorem reindex_error_form (model_columns : List String) (rec : Record) (e : PredError)
    (h : reindex_columns model_columns rec = .error e) : ∃ cols, e = .columnsMissing cols := by
  unfold reindex_columns at h
  split at h
  · cases h
  · cases h; exact ⟨_, rfl⟩

theorem to_float_row_error_form (vals : List Value) (e : PredError)
    (h : to_float_row vals = .error e) : ∃ s, e = .nonNumericValue s := by
  induction vals with
  | nil => cases h
  | cons v rest ih =>
    cases v with
    | q x =>
      simp only [to_float_row] at h
      cases hr : to_float_row rest with
      | error e2 => rw [hr] at h; cases h; exact ih hr
      | ok xs => rw [hr] at h; cases h
    | s str => cases h; exact ⟨_, rfl⟩

theorem transform_row_error_form (s : StandardScaler) (xs : List ℚ) (e : PredError)
    (h : s.transform_row xs = .error e) : ∃ a b, e = .dimMismatch a b := by
  unfold StandardScaler.transform_row at h
  split at h
  · cases h
  · cases h; exact ⟨_, _, rfl⟩

theorem scale_error_stage (s : StandardScaler) (vals : List Value) (e : PredError)
    (h : (to_float_row vals).bind s.transform_row = .error e) : e.stageCount = 3 := by
  cases hf : to_float_row vals with
  | error ef =>
    rw [hf] at h
    obtain rfl : ef = e := Except.error.inj h
    obtain ⟨str, rfl⟩ := to_float_row_error_form vals ef hf
    rfl
  | ok xs =>
    rw [hf] at h
    obtain ⟨a, b, rfl⟩ := transform_row_error_form s xs e h
    rfl

theorem insertSorted_perm (x : String) (l : List String) :
    (insertSorted x l).Perm (x :: l) := by
  induction l with
  | nil => exact List.Perm.refl _
  | cons y ys ih =>
    unfold insertSorted
    by_cases h : strLe x y = true
    · rw [if_pos h]
    · rw [if_neg h]
      exact (List.Perm.cons y ih).trans (List.Perm.swap x y ys)

theorem sortStrings_perm (l : List String) : (sortStrings l).Perm l := by
  induction l with
  | nil => exact List.Perm.refl _
  | cons x xs ih => exact (insertSorted_perm x (sortStrings xs)).trans (List.Perm.cons x ih)

theorem fit_classes_nodup (vs : List String) : (LabelEncoder.fit vs).classes_.Nodup :=
  (sortStrings_perm vs.dedup).nodup_iff.mpr vs.nodup_dedup

/-- C5: for every fitted encoder the label-to-code mapping is a bijection on
the fit-time category set: decoding the code of an observed label returns
the label, and encoding the label stored at an assigned code returns the
code. -/
theorem C5_encoder_bijection (vs : List String) (label : String) (code : ℕ)
    (hl : label ∈ (LabelEncoder.fit vs).classes_)
    (hc : code < (LabelEncoder.fit vs).classes_.length) :
    (((LabelEncoder.fit vs).encode? label).bind (LabelEncoder.fit vs).inverseTransform
        = some label)
    ∧ (((LabelEncoder.fit vs).inverseTransform code).bind (LabelEncoder.fit vs).encode?
        = some code) := by
  constructor
  · unfold LabelEncoder.encode?
    rw [if_pos hl]
    show (LabelEncoder.fit vs).inverseTransform (List.indexOf label _) = some label
    unfold LabelEncoder.inverseTransform
    have hlt : List.indexOf label (LabelEncoder.fit vs).classes_
        < (LabelEncoder.fit vs).classes_.length := List.indexOf_lt_length.mpr hl
    rw [List.getElem?_eq_getElem hlt, List.getElem_indexOf hlt]
  · unfold LabelEncoder.inverseTransform
    rw [List.getElem?_eq_getElem hc]
    show (LabelEncoder.fit vs).encode? ((LabelEncoder.fit vs).classes_[code]) = some code
    unfold LabelEncoder.encode?
    rw [if_pos (List.getElem_mem hc)]
    rw [List.indexOf_getElem (fit_classes_nodup vs) code hc]

theorem C5_witness :
    ((((LabelEncoder.fit ["M", "F"]).encode? "M").bind
        (LabelEncoder.fit ["M", "F"]).inverseTransform = some "M")
    ∧ (((LabelEncoder.fit ["M", "F"]).inverseTransform 0).bind
        (LabelEncoder.fit ["M", "F"]).encode? = some 0)) :=
  C5_encoder_bijection ["M", "F"] "M" 0 (by decide) (by decide)

/-- C1: for every loaded bundle and raw record the pipeline attempts its
stages in the fixed source order encode, assemble, scale, predict; a
successful call attempts all four exactly once in that order, and a failure
at any stage aborts the call there — the surfaced error is the typed error
of the failing stage, no later stage (in particular no prediction) is
attempted, and no stage is retried. -/
theorem C1_pipeline_fixed_order (b : Bundle) (rec : Record) :
    ((predictionPipeline b rec).1.isOk = true →
        (predictionPipeline b rec).2 = pipelineSteps) ∧
    (∀ e, (predictionPipeline b rec).1 = .error e →
        (predictionPipeline b rec).2 = pipelineSteps.take e.stageCount ∧
        e.stageCount ≤ 3) := by
  unfold predictionPipeline
  cases he : encode_categoricals b.label_encoders rec with
  | error e =>
    obtain ⟨c, vs, rfl⟩ := encode_error_unseen _ _ _ he
    refine ⟨fun ho => Bool.noConfusion ho, fun e2 he2 => ?_⟩
    obtain rfl : PredError.unseenLabels c vs = e2 := Except.error.inj he2
    exact ⟨rfl, by show (1:ℕ) ≤ 3; decide⟩
  | ok rec2 =>
    dsimp only
    cases hre : reindex_columns b.model_columns rec2 with
    | error e =>
      obtain ⟨cols, rfl⟩ := reindex_error_form _ _ _ hre
      refine ⟨fun ho => Bool.noConfusion ho, fun e2 he2 => ?_⟩
      obtain rfl : PredError.columnsMissing cols = e2 := Except.error.inj he2
      exact ⟨rfl, by show (2:ℕ) ≤ 3; decide⟩
    | ok vals =>
      dsimp only
      cases hsc : (to_float_row vals).bind b.scaler.transform_row with
      | error e =>
        refine ⟨fun ho => Bool.noConfusion ho, fun e2 he2 => ?_⟩
        obtain rfl : e = e2 := Except.error.inj he2
        rw [scale_error_stage b.scaler vals e hsc]
        exact ⟨rfl, by decide⟩
      | ok xs =>
        dsimp only
        exact ⟨fun ho => rfl, fun e2 he2 => Except.noConfusion he2⟩

/-- C3: any inference call whose record holds, for some encoder of the bank,
a value outside that encoder's fitted category set fails inside the encode
stage with the unseen-category error: no later stage runs and no default is
substituted. -/
theorem C3_unknown_category_raises (b : Bundle) (rec : Record)
    (hx : ∃ p ∈ b.label_encoders, ∃ v, rec.find? p.1 = some v ∧
        ∀ r, p.2.transformValue p.1 v ≠ .ok r) :
    ∃ col vals, predictionPipeline b rec
        = (.error (.unseenLabels col vals), [.encode]) := by
  obtain ⟨col, vs, he⟩ := encode_fails b.label_encoders rec hx
  refine ⟨col, vs, ?_⟩
  unfold predictionPipeline
  rw [he]
  rfl

/-- C4: an inference call whose record omits a column required by the
feature-order registry, and whose categorical encoding succeeds, fails in
the assemble stage with the missing-columns error naming the omitted
column. -/
theorem C4_missing_feature_raises (b : Bundle) (rec : Record) (c : String)
    (henc : (encode_categoricals b.label_encoders rec).isOk = true)
    (hc : c ∈ b.model_columns) (hmiss : rec.find? c = none) :
    ∃ missing, predictionPipeline b rec
        = (.error (.columnsMissing missing), [.encode, .assemble]) ∧ c ∈ missing := by
  cases he : encode_categoricals b.label_encoders rec with
  | error e => rw [he] at henc; cases henc
  | ok rec2 =>
    have h2 : rec2.find? c = none := by
      have hiso := encode_ok_find?_isSome b.label_encoders rec rec2 he c
      rw [hmiss] at hiso
      cases hx : rec2.find? c with
      | none => rfl
      | some v => rw [hx] at hiso; cases hiso
    have hcm : c ∈ b.model_columns.filter (fun cc => (rec2.find? cc).isNone) :=
      List.mem_filter.mpr ⟨hc, by rw [h2]; rfl⟩
    have hne : ¬ (b.model_columns.filter (fun cc => (rec2.find? cc).isNone) = []) := by
      intro h0; rw [h0] at hcm; cases hcm
    have hre : reindex_columns b.model_columns rec2
        = .error (.columnsMissing (b.model_columns.filter (fun cc => (rec2.find? cc).isNone))) := by
      unfold reindex_columns
      rw [if_neg hne]
    refine ⟨_, ?_, hcm⟩
    unfold predictionPipeline
    rw [he]
    dsimp only
    rw [hre]
    rfl

/-- the five-column encoder bank of `train.py` fitted on the category sets
named in the data model, used as a concrete witness bundle. -/
def demoEncoders : List (String × LabelEncoder) :=
  [("Sex", LabelEncoder.fit ["M", "F"]),
   ("ChestPainType", LabelEncoder.fit ["TA", "ATA", "NAP", "ASY"]),
   ("RestingECG", LabelEncoder.fit ["Normal", "ST", "LVH"]),
   ("ExerciseAngina", LabelEncoder.fit ["Y", "N"]),
   ("ST_Slope", LabelEncoder.fit ["Up", "Flat", "Down"])]

/-- the thirteen feature columns, in the dataset's order (the contents of
`model_columns.pkl`). -/
def feature_names : List String :=
  ["Age", "Sex", "ChestPainType", "RestingBP", "Cholesterol", "FastingBS",
   "RestingECG", "MaxHR", "ExerciseAngina", "Oldpeak", "ST_Slope", "Ca", "Thal"]

/-- a concrete fitted scaler (means zero, scales one). -/
def demoScaler : StandardScaler :=
  { mean_ := List.replicate 13 0, scale_ := List.replicate 13 1 }

/-- a small concrete fitted forest with nonempty leaves. -/
def demoForest : RandomForest :=
  ⟨[.leaf 3 1, .node 0 60 (.leaf 2 0) (.leaf 1 3)]⟩

/-- a concrete loaded bundle for witnesses. -/
def demoBundle : Bundle :=
  { model := demoForest, scaler := demoScaler,
    model_columns := feature_names, label_encoders := demoEncoders }

/-- the end-to-end scenario record of the spec. -/
def demoRecord : Record :=
  [("Age", .q 50), ("Sex", .s "M"), ("ChestPainType", .s "ATA"), ("RestingBP", .q 120),
   ("Cholesterol", .q 200), ("FastingBS", .q 0), ("RestingECG", .s "Normal"),
   ("MaxHR", .q 150), ("ExerciseAngina", .s "N"), ("Oldpeak", .q 1), ("ST_Slope", .s "Flat"),
   ("Ca", .q 0), ("Thal", .q 1)]

/-- the scenario record with the unseen category `Sex : X`. -/
def badSexRecord : Record := demoRecord.setCol "Sex" (.s "X")

/-- the scenario record with the `Oldpeak` column omitted. -/
def noOldpeakRecord : Record :=
  [("Age", .q 50), ("Sex", .s "M"), ("ChestPainType", .s "ATA"), ("RestingBP", .q 120),
   ("Cholesterol", .q 200), ("FastingBS", .q 0), ("RestingECG", .s "Normal"),
   ("MaxHR", .q 150), ("ExerciseAngina", .s "N"), ("ST_Slope", .s "Flat"),
   ("Ca", .q 0), ("Thal", .q 1)]

theorem C1_witness :
    (predictionPipeline demoBundle demoRecord).2 = pipelineSteps :=
  (C1_pipeline_fixed_order demoBundle demoRecord).1 (by decide)

theorem C3_witness :
    ∃ col vals, predictionPipeline demoBundle badSexRecord
        = (.error (.unseenLabels col vals), [.encode]) :=
  C3_unknown_category_raises demoBundle badSexRecord
    ⟨("Sex", LabelEncoder.fit ["M", "F"]), List.mem_cons_self _ _, .s "X", by decide,
     fun r hr => by
       have hX : (LabelEncoder.fit ["M", "F"]).transformValue "Sex" (.s "X")
           = .error (.unseenLabels "Sex" [.s "X"]) := by decide
       rw [hX] at hr
       exact Except.noConfusion hr⟩

theorem C4_witness :
    ∃ missing, predictionPipeline demoBundle noOldpeakRecord
        = (.error (.columnsMissing missing), [.encode, .assemble]) ∧ "Oldpeak" ∈ missing :=
  C4_missing_feature_raises demoBundle noOldpeakRecord "Oldpeak"
    (by decide) (by decide) (by decide)

/-- the four artifact files making up the persisted bundle. -/
def artifact_files : List String :=
  ["heart_model.pkl", "scaler.pkl", "model_columns.pkl", "label_encoders.pkl"]

/-- the fixed order in which `load_model_files` (`main.py` lines 127-130)
attempts the four loads. -/
def load_order : List String :=
  ["heart_model.pkl", "scaler.pkl", "model_columns.pkl", "label_encoders.pkl"]

/-- the order in which `train.py` dumps the artifact files: the
feature-order registry at line 32, before the model is even trained; the
other three at lines 58-60, after training. -/
def train_dump_order : List String :=
  ["model_columns.pkl", "heart_model.pkl", "scaler.pkl", "label_encoders.pkl"]

/-- the artifact files on disk after the first `k` dumps of a training run:
a run that stops between dumps (for instance because the fit fails after
line 32) leaves exactly such a set behind. -/
def files_after_dumps (k : ℕ) : List String := train_dump_order.take k

/-- `joblib.load`: returns the file content, or raises a FileNotFoundError
naming the one requested file. -/
def joblib_load (present : List String) (f : String) : Except (List String) Unit :=
  if f ∈ present then .ok () else .error [f]

/-- `load_model_files` (`main.py` lines 124-135): loads the four artifacts
in a fixed order inside one `try`; the first FileNotFoundError aborts the
function, which surfaces that error (naming only that one file) and
returns the `None` sentinel for all four artifacts — nothing is loaded
partially. -/
def load_model_files (present : List String) : Except (List String) Unit :=
  match joblib_load present "heart_model.pkl" with
  | .error e => .error e
  | .ok _ =>
    match joblib_load present "scaler.pkl" with
    | .error e => .error e
    | .ok _ =>
      match joblib_load present "model_columns.pkl" with
      | .error e => .error e
      | .ok _ =>
        match joblib_load present "label_encoders.pkl" with
        | .error e => .error e
        | .ok _ => .ok ()

/-- the artifact files absent from disk. -/
def missing_artifacts (present : List String) : List String :=
  artifact_files.filter (fun f => decide (f ∉ present))

/-- the first absent file in load order (at most one name). -/
def first_missing (present : List String) : List String :=
  (load_order.filter (fun f => decide (f ∉ present))).take 1

/-- C2 counterexample: with no artifact file on disk all four are absent,
yet `load_model_files` fails naming only `heart_model.pkl`, not the four;
and after its first dump the training script has written exactly one
artifact — a nonempty proper subset — so the four are not written
atomically as a set. -/
theorem C2_counterexample :
    load_model_files [] = .error ["heart_model.pkl"]
    ∧ missing_artifacts [] = artifact_files
    ∧ ["heart_model.pkl"] ≠ artifact_files
    ∧ files_after_dumps 1 = ["model_columns.pkl"]
    ∧ files_after_dumps 1 ≠ [] ∧ files_after_dumps 1 ≠ train_dump_order := by decide

/-- C2 amended: `train.py` writes the four artifacts one by one — the
feature-order registry before training, the other three after — so every
cut between dumps leaves a nonempty proper subset on disk; and
`load_model_files` attempts the four loads in a fixed order, succeeds
exactly when all four files are present, and otherwise fails with the
FileNotFoundError of the first absent file in load order, naming only that
file and returning no partial bundle. -/
theorem C2_amended_store (present : List String) :
    (load_model_files present = .ok () ↔ ∀ f ∈ artifact_files, f ∈ present)
    ∧ (∀ e, load_model_files present = .error e → e = first_missing present)
    ∧ (∀ k, k < 4 → 0 < k → files_after_dumps k ≠ [] ∧ files_after_dumps k ≠ train_dump_order) := by
  refine ⟨?_, ?_, by decide⟩ <;>
  · by_cases h1 : "heart_model.pkl" ∈ present <;>
    by_cases h2 : "scaler.pkl" ∈ present <;>
    by_cases h3 : "model_columns.pkl" ∈ present <;>
    by_cases h4 : "label_encoders.pkl" ∈ present <;>
    simp [load_model_files, joblib_load, artifact_files, load_order, first_missing,
      h1, h2, h3, h4]

theorem C2_amended_witness : ["heart_model.pkl"] = first_missing [] :=
  (C2_amended_store []).2.1 ["heart_model.pkl"] (by decide)

/-- the test-set size `train_test_split` computes for `test_size = 0.2`
(`_validate_shuffle_split`): the ceiling of a fifth of the sample count. -/
def n_test_of (n : ℕ) : ℕ := (n + 4) / 5

/-- the train-set size: the remaining samples. -/
def n_train_of (n : ℕ) : ℕ := n - n_test_of n

/-- sklearn `_approximate_mode` for the two label classes: allocate
`d` draws proportionally to the class counts, flooring, then hand the
remaining draw to the class with the larger fractional remainder (the RNG
only breaks exact ties; this model gives exact ties to class 0). -/
def approx_mode2 (c0 c1 d : ℕ) : ℕ × ℕ :=
  let n := c0 + c1
  let f0 := c0 * d / n
  let f1 := c1 * d / n
  let r := d - (f0 + f1)
  if c0 * d % n < c1 * d % n then (f0, f1 + r) else (f0 + r, f1)

/-- the number of records carrying a given label. -/
def countLabel (labels : List ℕ) (v : ℕ) : ℕ :=
  (labels.filter (fun y => decide (y = v))).length

/-- the number of distinct label values (`np.unique(y)`). -/
def n_classes_of (labels : List ℕ) : ℕ := labels.dedup.length

/-- `StratifiedShuffleSplit` input validation (`_iter_indices` and
`_validate_shuffle_split`): every class present needs at least two
members, and both the test size and the train size must be at least the
number of classes; when any check fails, `train_test_split` raises a
ValueError before computing any split. -/
def stratified_split_valid (labels : List ℕ) : Bool :=
  labels.dedup.all (fun v => decide (2 ≤ countLabel labels v))
  && decide (n_classes_of labels ≤ n_test_of labels.length)
  && decide (n_classes_of labels ≤ n_train_of labels.length)

/-- per-class train counts of the stratified 80/20 split (`train.py`
lines 35-37): after input validation, `_approximate_mode(class_counts,
n_train)`; an input failing validation raises ValueError instead of
producing any counts. -/
def train_label_counts (labels : List ℕ) : Except String (ℕ × ℕ) :=
  if stratified_split_valid labels then
    .ok (approx_mode2 (countLabel labels 0) (countLabel labels 1) (n_train_of labels.length))
  else .error "ValueError: y does not satisfy the stratified-split requirements"

/-- fraction of label-1 records in the train subset, when the split
validates. -/
def fraction_train_one (labels : List ℕ) : Except String ℚ :=
  (train_label_counts labels).map
    (fun a => (a.2 : ℚ) / (n_train_of labels.length : ℚ))

/-- fraction of label-1 records in the whole dataset. -/
def fraction_full_one (labels : List ℕ) : ℚ :=
  (countLabel labels 1 : ℚ) / (labels.length : ℚ)

theorem countLabel_cons (y : ℕ) (ys : List ℕ) (v : ℕ) :
    countLabel (y :: ys) v = (if y = v then 1 else 0) + countLabel ys v := by
  unfold countLabel
  rw [List.filter_cons]
  by_cases h : y = v
  · simp [h]
    omega
  · simp [h]

theorem countLabel_partition (labels : List ℕ) (hbin : ∀ y ∈ labels, y = 0 ∨ y = 1) :
    countLabel labels 0 + countLabel labels 1 = labels.length := by
  induction labels with
  | nil => rfl
  | cons y ys ih =>
    have hy := hbin y (List.mem_cons_self y ys)
    have ihh := ih (fun z hz => hbin z (List.mem_cons_of_mem y hz))
    rw [countLabel_cons, countLabel_cons, List.length_cons]
    rcases hy with rfl | rfl <;> simp <;> omega

theorem approx_mode2_snd_bound (c0 c1 d : ℕ) (hn : 0 < c0 + c1) (hd : d ≤ c0 + c1) :
    c1 * d / (c0 + c1) ≤ (approx_mode2 c0 c1 d).2
    ∧ (approx_mode2 c0 c1 d).2 ≤ c1 * d / (c0 + c1) + 1 := by
  have hA := Nat.div_add_mod (c0 * d) (c0 + c1)
  have hB := Nat.div_add_mod (c1 * d) (c0 + c1)
  have hr0 : c0 * d % (c0 + c1) < c0 + c1 := Nat.mod_lt _ hn
  have hr1 : c1 * d % (c0 + c1) < c0 + c1 := Nat.mod_lt _ hn
  have hsum : (c0 + c1) * d = c0 * d + c1 * d := Nat.add_mul c0 c1 d
  have hf : c0 * d / (c0 + c1) + c1 * d / (c0 + c1) ≤ d := by
    apply Nat.le_of_mul_le_mul_left _ hn
    rw [Nat.mul_add]
    omega
  have hd2 : d = (c0 * d / (c0 + c1) + c1 * d / (c0 + c1))
      + (d - (c0 * d / (c0 + c1) + c1 * d / (c0 + c1))) := by omega
  have hnr : (c0 + c1) * (d - (c0 * d / (c0 + c1) + c1 * d / (c0 + c1)))
      = c0 * d % (c0 + c1) + c1 * d % (c0 + c1) := by
    have hde : (c0 + c1) * d
        = (c0 + c1) * (c0 * d / (c0 + c1) + c1 * d / (c0 + c1))
          + (c0 + c1) * (d - (c0 * d / (c0 + c1) + c1 * d / (c0 + c1))) := by
      rw [← Nat.mul_add]
      rw [← hd2]
    rw [Nat.mul_add] at hde
    omega
  have hrle : d - (c0 * d / (c0 + c1) + c1 * d / (c0 + c1)) ≤ 1 := by
    apply Nat.lt_succ_iff.mp
    apply Nat.lt_of_mul_lt_mul_left (a := c0 + c1)
    omega
  simp only [approx_mode2]
  split <;> simp <;> omega

/-- the ten-record dataset with eight label-0 and two label-1 records: it
passes the splitter's input validation — each class has at least two
members, and the test size 2 and the train size 8 are both at least the
two classes. -/
def tenLabels : List ℕ := [0, 0, 0, 0, 0, 0, 0, 0, 1, 1]

/-- C6 counterexample: on a dataset the source splitter accepts — eight
label-0 records and two label-1 records — the stratified 80/20 split puts
two of the eight train slots on class 1: the train fraction 1/4 deviates
from the full fraction 1/5 by 1/20, which is not below 0.02, refuting the
claimed bound over all datasets. -/
theorem C6_counterexample :
    stratified_split_valid tenLabels = true
    ∧ train_label_counts tenLabels = .ok (6, 2)
    ∧ fraction_train_one tenLabels = .ok (1/4)
    ∧ fraction_full_one tenLabels = 1/5
    ∧ ¬ (|(1:ℚ)/4 - 1/5| < 1/50) := by
  have hv : stratified_split_valid tenLabels = true := by decide
  have htc : train_label_counts tenLabels = .ok (6, 2) := by decide
  refine ⟨hv, htc, ?_, ?_, ?_⟩
  · unfold fraction_train_one
    rw [htc]
    simp only [Except.map]
    norm_num [tenLabels, n_train_of, n_test_of]
  · norm_num [fraction_full_one, countLabel, tenLabels]
  · rw [abs_lt]
    norm_num

theorem stratified_bound_core (labels : List ℕ)
    (hbin : ∀ y ∈ labels, y = 0 ∨ y = 1)
    (hd : 0 < n_train_of labels.length) :
    |((approx_mode2 (countLabel labels 0) (countLabel labels 1)
          (n_train_of labels.length)).2 : ℚ) / (n_train_of labels.length : ℚ)
        - fraction_full_one labels|
      ≤ 1 / (n_train_of labels.length : ℚ) := by
  have hpart := countLabel_partition labels hbin
  have hdn : n_train_of labels.length ≤ labels.length := Nat.sub_le _ _
  have hn0 : 0 < labels.length := lt_of_lt_of_le hd hdn
  have hnn : countLabel labels 0 + countLabel labels 1 = labels.length := hpart
  have hb := approx_mode2_snd_bound (countLabel labels 0) (countLabel labels 1)
      (n_train_of labels.length) (by omega) (by omega)
  set c1 := countLabel labels 1 with hc1
  set n := labels.length with hn
  set d := n_train_of n with hdd
  set a1 := (approx_mode2 (countLabel labels 0) c1 d).2 with ha1
  have hdm := Nat.div_add_mod (c1 * d) n
  have hmod : c1 * d % n < n := Nat.mod_lt _ hn0
  rw [hnn] at hb
  have hcase : a1 = c1 * d / n ∨ a1 = c1 * d / n + 1 := by omega
  have hdQ : (0:ℚ) < (d : ℚ) := by exact_mod_cast hd
  have hnQ : (0:ℚ) < (n : ℚ) := by exact_mod_cast hn0
  have habs : |(a1 : ℚ) * n - c1 * d| ≤ n := by
    have hdmQ : (n : ℚ) * ((c1 * d / n : ℕ) : ℚ) + ((c1 * d % n : ℕ) : ℚ)
        = (c1 : ℚ) * d := by exact_mod_cast hdm
    have hmodQ : ((c1 * d % n : ℕ) : ℚ) < (n : ℚ) := by exact_mod_cast hmod
    have hmodQ0 : (0:ℚ) ≤ ((c1 * d % n : ℕ) : ℚ) := by positivity
    rw [abs_le]
    rcases hcase with h | h <;> rw [h] <;> push_cast <;> constructor <;> nlinarith
  have hfrac : (a1 : ℚ) / (d : ℚ) - fraction_full_one labels
      = ((a1 : ℚ) * n - c1 * d) / (d * n) := by
    unfold fraction_full_one
    rw [← hc1, ← hn]
    field_simp
    ring
  rw [hfrac, abs_div, abs_of_pos (by positivity : (0:ℚ) < (d:ℚ) * n)]
  rw [show (1:ℚ) / (d:ℚ) = (n : ℚ) / ((d:ℚ) * n) by field_simp]
  exact div_le_div_of_nonneg_right habs (by positivity) |>.trans_eq rfl

/-- C6 amended: on every binary-labeled dataset the splitter accepts — the
source raises ValueError on the rest before computing any split — the
stratified split preserves the label-1 proportion up to one sample: the
train fraction deviates from the full fraction by at most `1 / n_train`;
in particular the deviation is below 0.02 whenever the train subset holds
at least 51 records. -/
theorem C6_amended_stratified_bound (labels : List ℕ) (ft : ℚ)
    (hbin : ∀ y ∈ labels, y = 0 ∨ y = 1)
    (hft : fraction_train_one labels = .ok ft) :
    |ft - fraction_full_one labels| ≤ 1 / (n_train_of labels.length : ℚ)
    ∧ (51 ≤ n_train_of labels.length →
        |ft - fraction_full_one labels| < 1/50) := by
  unfold fraction_train_one at hft
  cases htc : train_label_counts labels with
  | error e => rw [htc] at hft; exact absurd hft (by simp [Except.map])
  | ok tc =>
    rw [htc] at hft
    have hfteq : ft = (tc.2 : ℚ) / (n_train_of labels.length : ℚ) :=
      (Except.ok.inj hft).symm
    unfold train_label_counts at htc
    by_cases hv : stratified_split_valid labels = true
    · rw [if_pos hv] at htc
      obtain rfl : approx_mode2 (countLabel labels 0) (countLabel labels 1)
          (n_train_of labels.length) = tc := Except.ok.inj htc
      have hd0 : 0 < n_train_of labels.length ∨ labels = [] := by
        cases labels with
        | nil => exact Or.inr rfl
        | cons y0 ys =>
          left
          have hvp : n_classes_of (y0 :: ys) ≤ n_train_of (y0 :: ys).length := by
            have hv2 := hv
            unfold stratified_split_valid at hv2
            simp only [Bool.and_eq_true, decide_eq_true_eq] at hv2
            exact hv2.2
          have hxp : 0 < n_classes_of (y0 :: ys) := by
            unfold n_classes_of
            apply List.length_pos.mpr
            intro hnil
            have hmem : y0 ∈ (y0 :: ys).dedup :=
              List.mem_dedup.mpr (List.mem_cons_self _ _)
            rw [hnil] at hmem
            cases hmem
          omega
      rcases hd0 with hd | rfl
      · have hcore := stratified_bound_core labels hbin hd
        rw [hfteq]
        refine ⟨hcore, fun h51 => ?_⟩
        have h51Q : (51:ℚ) ≤ ((n_train_of labels.length : ℕ) : ℚ) := by
          exact_mod_cast h51
        calc |((approx_mode2 (countLabel labels 0) (countLabel labels 1)
                (n_train_of labels.length)).2 : ℚ) / (n_train_of labels.length : ℚ)
              - fraction_full_one labels|
            ≤ 1 / ((n_train_of labels.length : ℕ) : ℚ) := hcore
          _ ≤ 1 / 51 := by
              apply one_div_le_one_div_of_le
              · norm_num
              · exact h51Q
          _ < 1 / 50 := by norm_num
      · rw [hfteq]
        constructor
        · norm_num [fraction_full_one, countLabel, n_train_of, n_test_of]
        · intro h51
          norm_num [n_train_of, n_test_of] at h51
    · rw [if_neg hv] at htc
      exact absurd htc (by simp)

theorem C6_amended_witness :
    |((2 : ℕ) : ℚ) / (n_train_of tenLabels.length : ℚ) - fraction_full_one tenLabels|
        ≤ 1 / (n_train_of tenLabels.length : ℚ) :=
  (C6_amended_stratified_bound tenLabels
    (((2 : ℕ) : ℚ) / (n_train_of tenLabels.length : ℚ)) (by decide) rfl).1

/-- one step of a linear congruential generator, standing in for numpy's
seeded Mersenne–Twister stream: a deterministic function of its seed,
which is the only property the development relies on. -/
def lcg (s : ℕ) : ℕ := (s * 1103515245 + 12345) % 2147483648

/-- the k-th pseudo-random draw of the stream seeded by `seed`. -/
def rngStream (seed : ℕ) : ℕ → ℕ
  | 0 => lcg (seed + 1)
  | k + 1 => lcg (rngStream seed k)

/-- sklearn `check_random_state`: `random_state = None` uses the ambient
global generator state, a fixed integer seed ignores the ambient state. -/
def check_random_state (ambient : ℕ) (random_state : Option ℕ) : ℕ :=
  random_state.getD ambient

/-- deterministic shuffle: order the positions by their stream draw, ties
by position. -/
def shuffle_idx (seed : ℕ) (idxs : List ℕ) : List ℕ :=
  idxs.mergeSort (fun i j => decide (rngStream seed i < rngStream seed j
    ∨ (rngStream seed i = rngStream seed j ∧ i ≤ j)))

/-- the dataset positions carrying a given label. -/
def class_indices (labels : List ℕ) (v : ℕ) : List ℕ :=
  (List.range labels.length).filter (fun i => decide (labels.getD i 0 = v))

/-- `train_test_split(X, y, test_size=0.2, random_state=42, stratify=y)`
(`train.py` lines 35-37): after `StratifiedShuffleSplit`'s input
validation (a ValueError otherwise), per-class train counts from
`_approximate_mode`, a seeded per-class shuffle, the first allocated
positions of each class for train and the rest for test. -/
def train_test_split_idx (ambient : ℕ) (random_state : Option ℕ) (labels : List ℕ) :
    Except String (List ℕ × List ℕ) :=
  if stratified_split_valid labels then
    let seed := check_random_state ambient random_state
    let a := approx_mode2 (countLabel labels 0) (countLabel labels 1)
        (n_train_of labels.length)
    let s0 := shuffle_idx seed (class_indices labels 0)
    let s1 := shuffle_idx (lcg seed) (class_indices labels 1)
    .ok (s0.take a.1 ++ s1.take a.2, s0.drop a.1 ++ s1.drop a.2)
  else .error "ValueError: y does not satisfy the stratified-split requirements"

/-- label counts of a training sample of (features, label) rows. -/
def sampleCounts (sample : List (List ℚ × ℕ)) : ℕ × ℕ :=
  (countLabel (sample.map Prod.snd) 0, countLabel (sample.map Prod.snd) 1)

/-- CART-style tree builder, a deterministic function of its sample: split
a column at its mean, recurse to a depth budget, emit the sample's class
counts at each leaf.  The library's impurity-driven choice of split is
abstracted; every theorem uses only determinism and the leaf counts. -/
def build_tree : ℕ → List (List ℚ × ℕ) → DTree
  | 0, sample => .leaf (sampleCounts sample).1 (sampleCounts sample).2
  | fuel + 1, sample =>
    let f := fuel % 13
    let thr := colMean (sample.map (fun r => r.1.getD f 0))
    let lef := sample.filter (fun r => decide (r.1.getD f 0 ≤ thr))
    let rgt := sample.filter (fun r => decide (¬ (r.1.getD f 0 ≤ thr)))
    if lef.isEmpty || rgt.isEmpty then
      .leaf (sampleCounts sample).1 (sampleCounts sample).2
    else .node f thr (build_tree fuel lef) (build_tree fuel rgt)

/-- one bootstrap sample: as many draws with replacement as there are
rows, positions taken from the seeded stream. -/
def bootstrap_sample (seed : ℕ) (rows : List (List ℚ × ℕ)) : List (List ℚ × ℕ) :=
  (List.range rows.length).map (fun i => rows.getD (rngStream seed i % rows.length) ([], 0))

/-- `RandomForestClassifier(n_estimators=100, random_state=42).fit`
(`train.py` lines 47-48): the seed comes from `check_random_state`, one
tree is grown per bootstrap sample. -/
def rfc_fit (ambient : ℕ) (random_state : Option ℕ) (n_estimators : ℕ)
    (rows : List (List ℚ × ℕ)) : RandomForest :=
  let seed := check_random_state ambient random_state
  ⟨(List.range n_estimators).map (fun i => build_tree 4 (bootstrap_sample (seed + i) rows))⟩

/-- select rows of a matrix by position. -/
def select_rows (X : List (List ℚ)) (idx : List ℕ) : List (List ℚ) :=
  idx.map (fun i => X.getD i [])

/-- select labels by position. -/
def select_labels (y : List ℕ) (idx : List ℕ) : List ℕ :=
  idx.map (fun i => y.getD i 0)

/-- column-major view of a row-major matrix with `ncols` columns. -/
def transpose_cols (m : List (List ℚ)) (ncols : ℕ) : List (List ℚ) :=
  (List.range ncols).map (fun j => m.map (fun r => r.getD j 0))

/-- one full training run of `train.py` under an ambient global RNG state:
stratified split with `random_state = 42` (propagating its ValueError on
an invalid dataset), scaler fit on the train split, forest fit with
`random_state = 42` on the scaled train split, and the fitted model's
predictions on the scaled held-out test split. -/
def train_run (sq : ℚ → ℚ) (ambient : ℕ) (X : List (List ℚ)) (y : List ℕ) :
    Except String ((List ℕ × List ℕ) × RandomForest × List ℕ) :=
  match train_test_split_idx ambient (some 42) y with
  | .error e => .error e
  | .ok part =>
    let Xtr := select_rows X part.1
    let Xte := select_rows X part.2
    let ytr := select_labels y part.1
    let scaler := StandardScaler.fit sq (transpose_cols Xtr (X.getD 0 []).length)
    let XtrS := Xtr.map (fun r =>
      zipWith3 (fun x m sc => (x - m) / sc) r scaler.mean_ scaler.scale_)
    let XteS := Xte.map (fun r =>
      zipWith3 (fun x m sc => (x - m) / sc) r scaler.mean_ scaler.scale_)
    let model := rfc_fit ambient (some 42) 100 (XtrS.zip ytr)
    .ok (part, model, XteS.map model.predict)

/-- C7: with the seed fixed to 42 at both randomized call sites of
`train.py`, training is deterministic: whatever the ambient global
generator states of the two processes, two independent runs on the same
dataset produce the identical call outcome — on a dataset the splitter
accepts, the identical train/test partition, fitted forest and held-out
test-set predictions, and on any other dataset the identical error. -/
theorem C7_training_deterministic (sq : ℚ → ℚ) (ambient1 ambient2 : ℕ)
    (X : List (List ℚ)) (y : List ℕ) :
    train_run sq ambient1 X y = train_run sq ambient2 X y := by
  unfold train_run train_test_split_idx rfc_fit check_random_state
  rfl

theorem transform_rows_ok_getD (s : StandardScaler) (m out : List (List ℚ))
    (h : transform_rows s m = .ok out) :
    out.length = m.length
    ∧ ∀ i, i < m.length → s.transform_row (m.getD i []) = .ok (out.getD i []) := by
  induction m generalizing out with
  | nil =>
    simp only [transform_rows] at h
    cases h
    exact ⟨rfl, fun i hi => absurd hi (Nat.not_lt_zero i)⟩
  | cons r rs ih =>
    simp only [transform_rows] at h
    cases hr : s.transform_row r with
    | error e => rw [hr] at h; cases h
    | ok r2 =>
      rw [hr] at h
      dsimp only at h
      cases hrs : transform_rows s rs with
      | error e => rw [hrs] at h; cases h
      | ok rs2 =>
        rw [hrs] at h
        cases h
        obtain ⟨hlen, hidx⟩ := ih rs2 hrs
        refine ⟨by simp [hlen], fun i hi => ?_⟩
        cases i with
        | zero => simpa using hr
        | succ i => simpa using hidx i (by simpa using hi)

theorem zipWith3_getD (f : ℚ → ℚ → ℚ → ℚ) (as bs cs : List ℚ) (j : ℕ)
    (hj : j < as.length) (hb : as.length = bs.length) (hc : as.length = cs.length) :
    (zipWith3 f as bs cs).getD j 0 = f (as.getD j 0) (bs.getD j 0) (cs.getD j 0) := by
  induction as generalizing bs cs j with
  | nil => cases hj
  | cons a as ih =>
    cases bs with
    | nil => cases hb
    | cons b bs =>
      cases cs with
      | nil => cases hc
      | cons c cs =>
        cases j with
        | zero => rfl
        | succ j =>
          simp only [zipWith3, List.getD_cons_succ]
          exact ih bs cs j (by simpa using hj) (by simpa using hb) (by simpa using hc)

/-- C8: the scaler's transform returns its state unchanged, so reapplying
it with the same parameters to the same input yields the identical call
result; and whenever it succeeds, every output entry is the corresponding
input entry minus the fit-time mean of its column, divided by the fit-time
scale of its column — the statistics stored in the scaler, never
recomputed from the argument matrix. -/
theorem C8_scaler_transform (s : StandardScaler) (m : List (List ℚ))
    (hs : s.scale_.length = s.mean_.length) :
    (s.transform m).2 = s
    ∧ (s.transform m).2.transform m = s.transform m
    ∧ ∀ out, (s.transform m).1 = .ok out →
        ∀ i j, i < m.length → j < s.mean_.length →
          (out.getD i []).getD j 0
            = ((m.getD i []).getD j 0 - s.mean_.getD j 0) / s.scale_.getD j 0 := by
  refine ⟨rfl, rfl, fun out hout i j hi hj => ?_⟩
  obtain ⟨hlen, hidx⟩ := transform_rows_ok_getD s m out hout
  have hr := hidx i hi
  unfold StandardScaler.transform_row at hr
  split at hr
  case isTrue hl =>
    have hz := Except.ok.inj hr
    rw [← hz]
    exact zipWith3_getD _ _ _ _ j (by omega) hl (by omega)
  case isFalse hl => exact absurd hr (fun hh => Except.noConfusion hh)

/-- a concrete fitted scaler for the witness. -/
def unitScaler : StandardScaler := { mean_ := [0], scale_ := [1] }

theorem C8_witness :
    ((unitScaler.transform [[5]]).2 = unitScaler)
    ∧ (([[((5:ℚ) - 0) / 1]].getD 0 []).getD 0 0
        = (([[(5:ℚ)]].getD 0 []).getD 0 0 - unitScaler.mean_.getD 0 0)
          / unitScaler.scale_.getD 0 0) :=
  ⟨(C8_scaler_transform unitScaler [[5]] (by decide)).1,
   (C8_scaler_transform unitScaler [[5]] (by decide)).2.2 [[((5:ℚ) - 0) / 1]] rfl 0 0
     (by decide) (by decide)⟩

theorem leafCounts_pos (t : DTree) (x : List ℚ) (h : t.wfB = true) :
    0 < (t.leafCounts x).1 + (t.leafCounts x).2 := by
  induction t with
  | leaf a b => simpa [DTree.wfB, DTree.leafCounts] using h
  | node f thr l r ihl ihr =>
    simp only [DTree.wfB, Bool.and_eq_true] at h
    simp only [DTree.leafCounts]
    split
    · exact ihl h.1
    · exact ihr h.2

theorem tree_proba_bounds (t : DTree) (x : List ℚ) (h : t.wfB = true) :
    0 ≤ (t.proba x).1 ∧ 0 ≤ (t.proba x).2 ∧ (t.proba x).1 + (t.proba x).2 = 1 := by
  have hp := leafCounts_pos t x h
  unfold DTree.proba
  have hab : (0:ℚ) < ((t.leafCounts x).1 : ℚ) + ((t.leafCounts x).2 : ℚ) := by
    have : (0:ℚ) < (((t.leafCounts x).1 + (t.leafCounts x).2 : ℕ) : ℚ) := by
      exact_mod_cast hp
    push_cast at this
    exact this
  refine ⟨by positivity, by positivity, ?_⟩
  rw [div_add_div_same, div_self (ne_of_gt hab)]

theorem pair_sum_split (ps : List (ℚ × ℚ)) (h : ∀ p ∈ ps, p.1 + p.2 = 1) :
    (ps.map Prod.fst).sum + (ps.map Prod.snd).sum = ps.length := by
  induction ps with
  | nil => simp
  | cons p rest ih =>
    simp only [List.map_cons, List.sum_cons, List.length_cons]
    have hp := h p (List.mem_cons_self _ _)
    have ihh := ih (fun q hq => h q (List.mem_cons_of_mem _ hq))
    push_cast
    linarith

theorem predictProba_bounds (mo : RandomForest) (x : List ℚ) (hwf : mo.wf) :
    0 ≤ (mo.predictProba x).1 ∧ (mo.predictProba x).1 ≤ 1
    ∧ 0 ≤ (mo.predictProba x).2 ∧ (mo.predictProba x).2 ≤ 1
    ∧ (mo.predictProba x).1 + (mo.predictProba x).2 = 1 := by
  obtain ⟨hne, hall⟩ := hwf
  have hmem : ∀ p ∈ mo.trees.map (fun t => t.proba x),
      0 ≤ p.1 ∧ 0 ≤ p.2 ∧ p.1 + p.2 = 1 := by
    intro p hp
    obtain ⟨t, ht, rfl⟩ := List.mem_map.mp hp
    exact tree_proba_bounds t x (hall t ht)
  have hlpos : 0 < mo.trees.length := List.length_pos.mpr hne
  have hLQ : (0:ℚ) < (mo.trees.length : ℚ) := by exact_mod_cast hlpos
  have hsumF0 : 0 ≤ ((mo.trees.map (fun t => t.proba x)).map Prod.fst).sum :=
    List.sum_nonneg (by
      intro q hq
      obtain ⟨p, hp, rfl⟩ := List.mem_map.mp hq
      exact (hmem p hp).1)
  have hsumS0 : 0 ≤ ((mo.trees.map (fun t => t.proba x)).map Prod.snd).sum :=
    List.sum_nonneg (by
      intro q hq
      obtain ⟨p, hp, rfl⟩ := List.mem_map.mp hq
      exact (hmem p hp).2.1)
  have hsplit := pair_sum_split (mo.trees.map (fun t => t.proba x))
      (fun p hp => (hmem p hp).2.2)
  rw [List.length_map] at hsplit
  unfold RandomForest.predictProba
  constructor
  · positivity
  refine ⟨?_, by positivity, ?_, ?_⟩
  · rw [div_le_one hLQ]
    linarith
  · rw [div_le_one hLQ]
    linarith
  · rw [div_add_div_same, hsplit, div_self (ne_of_gt hLQ)]

theorem predict_mem (mo : RandomForest) (x : List ℚ) :
    mo.predict x = 0 ∨ mo.predict x = 1 := by
  unfold RandomForest.predict
  dsimp only
  split
  · exact Or.inr rfl
  · exact Or.inl rfl

/-- C9: whenever the inference pipeline returns a result — in particular on
the end-to-end scenario record — the predicted label is 0 or 1, both class
probabilities lie in [0, 1], and they sum to exactly 1, hence to 1 within
one millionth. -/
theorem C9_prediction_output_sound (b : Bundle) (rec : Record)
    (hwf : b.model.wf) (hok : (predictionPipeline b rec).1.isOk = true) :
    ∃ o, (predictionPipeline b rec).1 = .ok o
      ∧ (o.label = 0 ∨ o.label = 1)
      ∧ 0 ≤ o.p0 ∧ o.p0 ≤ 1 ∧ 0 ≤ o.p1 ∧ o.p1 ≤ 1
      ∧ o.p0 + o.p1 = 1
      ∧ |o.p0 + o.p1 - 1| < 1/1000000 := by
  unfold predictionPipeline at hok ⊢
  cases he : encode_categoricals b.label_encoders rec with
  | error e => rw [he] at hok; exact Bool.noConfusion hok
  | ok rec2 =>
    rw [he] at hok
    dsimp only at hok ⊢
    cases hre : reindex_columns b.model_columns rec2 with
    | error e => rw [hre] at hok; exact Bool.noConfusion hok
    | ok vals =>
      rw [hre] at hok
      dsimp only at hok ⊢
      cases hsc : (to_float_row vals).bind b.scaler.transform_row with
      | error e => rw [hsc] at hok; exact Bool.noConfusion hok
      | ok xs =>
        obtain ⟨h0, h1, h2, h3, h4⟩ := predictProba_bounds b.model xs hwf
        refine ⟨_, rfl, predict_mem b.model xs, h0, h1, h2, h3, h4, ?_⟩
        rw [h4]
        norm_num

theorem C9_witness :
    ∃ o, (predictionPipeline demoBundle demoRecord).1 = .ok o
      ∧ (o.label = 0 ∨ o.label = 1)
      ∧ 0 ≤ o.p0 ∧ o.p0 ≤ 1 ∧ 0 ≤ o.p1 ∧ o.p1 ≤ 1
      ∧ o.p0 + o.p1 = 1
      ∧ |o.p0 + o.p1 - 1| < 1/1000000 :=
  C9_prediction_output_sound demoBundle demoRecord (by decide) (by decide)

theorem encode_ok_of_all_good (bank : List (String × LabelEncoder)) (rec : Record)
    (hnd : (bank.map Prod.fst).Nodup)
    (hgood : ∀ p ∈ bank, ∀ v, rec.find? p.1 = some v →
        (p.2.transformValue p.1 v).isOk = true) :
    (encode_categoricals bank rec).isOk = true := by
  induction bank generalizing rec with
  | nil => rfl
  | cons q rest ih =>
    obtain ⟨col, le⟩ := q
    obtain ⟨hcol, hrest⟩ := List.nodup_cons.mp hnd
    simp only [encode_categoricals]
    cases hf : rec.find? col with
    | none =>
      exact ih rec hrest (fun p hp v hv => hgood p (List.mem_cons_of_mem _ hp) v hv)
    | some v =>
      dsimp only
      have hok := hgood (col, le) (List.mem_cons_self _ _) v hf
      cases ht : le.transformValue col v with
      | error e => rw [ht] at hok; exact Bool.noConfusion hok
      | ok v2 =>
        apply ih _ hrest
        intro p hp v' hv'
        by_cases hcc : p.1 = col
        · exfalso
          apply hcol
          rw [← hcc]
          exact List.mem_map.mpr ⟨p, hp, rfl⟩
        · rw [find?_setCol_ne _ _ _ _ hcc] at hv'
          exact hgood p (List.mem_cons_of_mem _ hp) v' hv'

/-- the five categorical columns of the encoder bank (`train.py` line 15),
in bank order. -/
def categorical_cols : List String :=
  ["Sex", "ChestPainType", "RestingECG", "ExerciseAngina", "ST_Slope"]

/-- one interaction with the input form of `display_input_section`
(`main.py` lines 168-258): sliders yield numbers, select boxes yield one
of the offered options. -/
structure FormState where
  age : ℚ
  sex : String
  cp : String
  restbp : ℚ
  chol : ℚ
  fbs : String
  restecg : String
  maxhr : ℚ
  exang : String
  oldpeak : ℚ
  slope : String
  ca : ℚ
  thal : ℚ

/-- `int(fbs)` on the select-box options `{0, 1}` (`main.py` line 250). -/
def fbs_to_int (s : String) : ℚ := if s = "1" then 1 else 0

/-- the `st.session_state.user_inputs` dict built at `main.py` lines
244-258: always exactly the thirteen fields. -/
def user_inputs (f : FormState) : Record :=
  [("Age", .q f.age), ("Sex", .s f.sex), ("ChestPainType", .s f.cp),
   ("RestingBP", .q f.restbp), ("Cholesterol", .q f.chol),
   ("FastingBS", .q (fbs_to_int f.fbs)), ("RestingECG", .s f.restecg),
   ("MaxHR", .q f.maxhr), ("ExerciseAngina", .s f.exang),
   ("Oldpeak", .q f.oldpeak), ("ST_Slope", .s f.slope),
   ("Ca", .q f.ca), ("Thal", .q f.thal)]

/-- the options a select box offers: `label_encoders[col].classes_`. -/
def bank_classes (bank : List (String × LabelEncoder)) (col : String) : List String :=
  ((bank.find? (fun p => decide (p.1 = col))).map (fun p => p.2.classes_)).getD []

/-- the selections the form widgets can actually deliver: each select box
shows one of its options, the fasting-blood-sugar box offers `0` and `1`. -/
def valid_form (bank : List (String × LabelEncoder)) (f : FormState) : Prop :=
  f.sex ∈ bank_classes bank "Sex"
  ∧ f.cp ∈ bank_classes bank "ChestPainType"
  ∧ f.restecg ∈ bank_classes bank "RestingECG"
  ∧ f.exang ∈ bank_classes bank "ExerciseAngina"
  ∧ f.slope ∈ bank_classes bank "ST_Slope"
  ∧ (f.fbs = "0" ∨ f.fbs = "1")

instance (bank : List (String × LabelEncoder)) (f : FormState) :
    Decidable (valid_form bank f) := by
  unfold valid_form; infer_instance

theorem user_inputs_keys (f : FormState) (c : String) (hc : c ∈ feature_names) :
    ((user_inputs f).find? c).isSome = true := by
  simp only [feature_names, List.mem_cons, List.not_mem_nil, or_false] at hc
  rcases hc with rfl|rfl|rfl|rfl|rfl|rfl|rfl|rfl|rfl|rfl|rfl|rfl|rfl <;> rfl

theorem find?_user_inputs_string (f : FormState) (col : String) (v : Value)
    (hv : (user_inputs f).find? col = some v)
    (hcat : col ∈ categorical_cols) :
    (v = .s f.sex ∧ col = "Sex") ∨ (v = .s f.cp ∧ col = "ChestPainType")
    ∨ (v = .s f.restecg ∧ col = "RestingECG")
    ∨ (v = .s f.exang ∧ col = "ExerciseAngina")
    ∨ (v = .s f.slope ∧ col = "ST_Slope") := by
  simp only [categorical_cols, List.mem_cons, List.not_mem_nil, or_false] at hcat
  rcases hcat with rfl|rfl|rfl|rfl|rfl
  · exact Or.inl ⟨(Option.some.inj ((rfl :
      (user_inputs f).find? "Sex" = some (.s f.sex)).symm.trans hv)).symm, rfl⟩
  · exact Or.inr (Or.inl ⟨(Option.some.inj ((rfl :
      (user_inputs f).find? "ChestPainType" = some (.s f.cp)).symm.trans hv)).symm, rfl⟩)
  · exact Or.inr (Or.inr (Or.inl ⟨(Option.some.inj ((rfl :
      (user_inputs f).find? "RestingECG" = some (.s f.restecg)).symm.trans hv)).symm, rfl⟩))
  · exact Or.inr (Or.inr (Or.inr (Or.inl ⟨(Option.some.inj ((rfl :
      (user_inputs f).find? "ExerciseAngina" = some (.s f.exang)).symm.trans hv)).symm, rfl⟩)))
  · exact Or.inr (Or.inr (Or.inr (Or.inr ⟨(Option.some.inj ((rfl :
      (user_inputs f).find? "ST_Slope" = some (.s f.slope)).symm.trans hv)).symm, rfl⟩)))

theorem find?_eq_of_nodup (bank : List (String × LabelEncoder)) (p : String × LabelEncoder)
    (hnd : (bank.map Prod.fst).Nodup) (hp : p ∈ bank) :
    bank.find? (fun q => decide (q.1 = p.1)) = some p := by
  induction bank with
  | nil => cases hp
  | cons q rest ih =>
    rw [List.map_cons] at hnd
    obtain ⟨hq, hrest⟩ := List.nodup_cons.mp hnd
    rcases List.mem_cons.mp hp with rfl | hmem
    · simp [List.find?]
    · have hne : q.1 ≠ p.1 := by
        intro hh
        apply hq
        rw [hh]
        exact List.mem_map.mpr ⟨p, hmem, rfl⟩
      simp only [List.find?, decide_eq_false hne]
      exact ih hrest hmem

theorem bank_classes_of_mem (bank : List (String × LabelEncoder))
    (p : String × LabelEncoder)
    (hnd : (bank.map Prod.fst).Nodup) (hp : p ∈ bank) :
    bank_classes bank p.1 = p.2.classes_ := by
  unfold bank_classes
  rw [find?_eq_of_nodup bank p hnd hp]
  rfl

/-- C10: a record coming from the interactive form always carries all
thirteen required fields, and every categorical field holds one of the
corresponding fitted encoder's classes, because the select boxes draw
their options from `label_encoders[col].classes_`; consequently, whatever
the form selections, the pipeline never fails with the unseen-category
error or the missing-columns error — those two failure branches are
unreachable from the UI. -/
theorem C10_ui_failure_branches_unreachable (bank : List (String × LabelEncoder))
    (f : FormState) (b : Bundle)
    (hkeys : bank.map Prod.fst = categorical_cols)
    (hval : valid_form bank f)
    (hb : b.label_encoders = bank)
    (hmc : ∀ c ∈ b.model_columns, c ∈ feature_names) :
    (∀ col vals,
        (predictionPipeline b (user_inputs f)).1 ≠ .error (.unseenLabels col vals))
    ∧ (∀ cols,
        (predictionPipeline b (user_inputs f)).1 ≠ .error (.columnsMissing cols)) := by
  have hndk : (bank.map Prod.fst).Nodup := by rw [hkeys]; decide
  obtain ⟨h1, h2, h3, h4, h5, h6⟩ := hval
  have hgood : ∀ p ∈ bank, ∀ v, (user_inputs f).find? p.1 = some v →
      (p.2.transformValue p.1 v).isOk = true := by
    intro p hp v hv
    have hpc : p.1 ∈ categorical_cols := by
      rw [← hkeys]
      exact List.mem_map.mpr ⟨p, hp, rfl⟩
    have hcls := bank_classes_of_mem bank p hndk hp
    rcases find?_user_inputs_string f p.1 v hv hpc with
      ⟨rfl, hcol⟩ | ⟨rfl, hcol⟩ | ⟨rfl, hcol⟩ | ⟨rfl, hcol⟩ | ⟨rfl, hcol⟩ <;>
      rw [hcol] at hcls
    · rw [hcol]
      have hmem : f.sex ∈ p.2.classes_ := hcls ▸ h1
      simp [LabelEncoder.transformValue, hmem, Except.isOk, Except.toBool]
    · rw [hcol]
      have hmem : f.cp ∈ p.2.classes_ := hcls ▸ h2
      simp [LabelEncoder.transformValue, hmem, Except.isOk, Except.toBool]
    · rw [hcol]
      have hmem : f.restecg ∈ p.2.classes_ := hcls ▸ h3
      simp [LabelEncoder.transformValue, hmem, Except.isOk, Except.toBool]
    · rw [hcol]
      have hmem : f.exang ∈ p.2.classes_ := hcls ▸ h4
      simp [LabelEncoder.transformValue, hmem, Except.isOk, Except.toBool]
    · rw [hcol]
      have hmem : f.slope ∈ p.2.classes_ := hcls ▸ h5
      simp [LabelEncoder.transformValue, hmem, Except.isOk, Except.toBool]
  have hencB : (encode_categoricals b.label_encoders (user_inputs f)).isOk = true := by
    rw [hb]
    exact encode_ok_of_all_good bank (user_inputs f) hndk hgood
  cases he : encode_categoricals b.label_encoders (user_inputs f) with
  | error e => rw [he] at hencB; exact Bool.noConfusion hencB
  | ok rec2 =>
    have hsome : ∀ c ∈ b.model_columns, (rec2.find? c).isSome = true := by
      intro c hc
      rw [encode_ok_find?_isSome b.label_encoders (user_inputs f) rec2 he c]
      exact user_inputs_keys f c (hmc c hc)
    have hfil : b.model_columns.filter (fun c => (rec2.find? c).isNone) = [] := by
      rw [List.filter_eq_nil]
      intro c hc
      have hcs := hsome c hc
      cases hx : rec2.find? c with
      | none => rw [hx] at hcs; exact absurd hcs (by simp)
      | some v => simp [hx]
    have hre : reindex_columns b.model_columns rec2
        = .ok (b.model_columns.map (fun c => ((rec2.find? c).getD (.q 0)))) := by
      unfold reindex_columns
      rw [if_pos hfil]
    have hstage : ∀ e, (predictionPipeline b (user_inputs f)).1 = .error e →
        e.stageCount = 3 := by
      unfold predictionPipeline
      rw [he]
      dsimp only
      rw [hre]
      dsimp only
      intro e heq
      cases hsc : (to_float_row
          (b.model_columns.map (fun c => ((rec2.find? c).getD (.q 0))))).bind
          b.scaler.transform_row with
      | error e2 =>
        rw [hsc] at heq
        obtain rfl : e2 = e := Except.error.inj heq
        exact scale_error_stage _ _ _ hsc
      | ok xs =>
        rw [hsc] at heq
        exact Except.noConfusion heq
    refine ⟨fun col vals hcon => ?_, fun cols hcon => ?_⟩
    · have hh := hstage _ hcon
      simp [PredError.stageCount] at hh
    · have hh := hstage _ hcon
      simp [PredError.stageCount] at hh

/-- the end-to-end scenario selections entered through the form. -/
def demoForm : FormState :=
  { age := 50, sex := "M", cp := "ATA", restbp := 120, chol := 200, fbs := "0",
    restecg := "Normal", maxhr := 150, exang := "N", oldpeak := 1, slope := "Flat",
    ca := 0, thal := 1 }

theorem C10_witness :
    (predictionPipeline demoBundle (user_inputs demoForm)).1
      ≠ .error (.unseenLabels "Sex" [.s "M"]) :=
  (C10_ui_failure_branches_unreachable demoEncoders demoForm demoBundle
    (by decide) (by decide) rfl (by decide)).1 "Sex" [.s "M"]

end HeartApp
